import Mathlib

/-!
Verification of the activation-performance analysis engine
(`analysis.py`): the greedy one-hour redemption matcher, the
multi-interval transaction collection, new/returning classification,
baseline sampling with activation-overlap exclusion, and the group
budget accounting.  Timestamps are modelled as seconds (`Int`),
monetary amounts as integer cents (`Int`); exact aggregates (means,
medians) live in `ℚ`.
-/

namespace SFA

/-- A transaction row: stable row id, location match key, user id,
timestamp in seconds, monetary amount. -/
structure Txn where
  id : Nat
  key : String
  user : Nat
  ts : Int
  amount : Int
  deriving DecidableEq, Repr, Inhabited

/-- A closed time interval `[start, stop]`. -/
structure Ivl where
  start : Int
  stop : Int
  deriving DecidableEq, Repr, Inhabited

/-- One hour, in seconds (`timedelta(hours=1)`). -/
def hourLen : Int := 3600

/-- One week, in seconds (`timedelta(weeks=1)`). -/
def weekLen : Int := 604800

/-- Sum of the amounts of a list of transactions. -/
def txnSum (l : List Txn) : Int := (l.map (·.amount)).sum

/-- The transactions of the user's stream lying inside the anchored
one-hour window `[t.ts, t.ts + 1h]` (both ends included) and not yet
consumed: the `window_txns` filter of the matching loop. -/
def windowOf (all : List Txn) (consumed : List Nat) (t : Txn) : List Txn :=
  all.filter (fun u => decide (t.ts ≤ u.ts ∧ u.ts ≤ t.ts + hourLen ∧ u.id ∉ consumed))

/-- A materialized redemption event. -/
structure RedemptionEvent where
  user : Nat
  windowStart : Int
  windowStop : Int
  consumedIds : List Nat
  windowSum : Int
  deriving DecidableEq, Repr, Inhabited

/-- Event materialized for a qualifying window anchored at `t`. -/
def mkEvent (t : Txn) (w : List Txn) (s : Int) : RedemptionEvent :=
  ⟨t.user, t.ts, t.ts + hourLen, w.map (·.id), s⟩

/-- One step of the matcher's scan: an anchor that was not already
consumed when reached, the window collected for it, the window sum,
whether the threshold was met, and the consumed set at that moment. -/
structure Step where
  anchor : Txn
  window : List Txn
  total : Int
  hit : Bool
  consumedBefore : List Nat
  deriving DecidableEq, Repr, Inhabited

/-- Result of the per-user matcher: events, final consumed id set, and
the trace of window-opening steps. -/
structure MRes where
  events : List RedemptionEvent
  consumed : List Nat
  trace : List Step
  deriving DecidableEq, Repr, Inhabited

/-- The per-user greedy redemption matcher.  `all` is the user's full
(sorted) stream, scanned in order; `consumed` is the `used_indices`
set.  An anchor already consumed is skipped; otherwise its one-hour
window is collected from `all`, summed, and on `min_spend ≤ sum` every
window transaction is marked consumed and one event is materialized. -/
def matchUser (all : List Txn) (ms : Int) : List Txn → List Nat → MRes
  | [], c => ⟨[], c, []⟩
  | t :: rest, c =>
    if t.id ∈ c then matchUser all ms rest c
    else
      let w := windowOf all c t
      let s := txnSum w
      if ms ≤ s then
        let r := matchUser all ms rest (c ++ w.map (·.id))
        ⟨mkEvent t w s :: r.events, r.consumed, ⟨t, w, s, true, c⟩ :: r.trace⟩
      else
        let r := matchUser all ms rest c
        ⟨r.events, r.consumed, ⟨t, w, s, false, c⟩ :: r.trace⟩

/-- Stable sort of a transaction list by timestamp
(`sort_values('created_at_dt')`). -/
def sortByTs (l : List Txn) : List Txn := l.insertionSort (fun a b => a.ts ≤ b.ts)

/-- A user's sorted transaction stream within a scope. -/
def userStream (txns : List Txn) (u : Nat) : List Txn :=
  sortByTs (txns.filter (fun t => decide (t.user = u)))

/-- Run the matcher on one user's stream with an empty consumed set. -/
def runUser (stream : List Txn) (ms : Int) : MRes := matchUser stream ms stream []

/-- The distinct users of a scope (`matching_txns['user_id'].unique()`). -/
def usersOf (txns : List Txn) : List Nat := (txns.map (·.user)).dedup

/-- All redemption events of a scoring scope, user by user. -/
def allEvents (txns : List Txn) (ms : Int) : List RedemptionEvent :=
  (usersOf txns).flatMap (fun u => (runUser (userStream txns u) ms).events)

/-- The scope's qualifying redemption count (`qualifying_redemptions`). -/
def redemptionCountAll (txns : List Txn) (ms : Int) : Nat :=
  ((usersOf txns).map (fun u => (runUser (userStream txns u) ms).events.length)).sum

/-- Transactions of a location inside one effective sub-interval
`[lo, hi]`; an inverted interval contributes nothing (the `continue`
branch of the collection loops). -/
def periodSlice (txns : List Txn) (key : String) (lo hi : Int) : List Txn :=
  if lo ≤ hi then txns.filter (fun t => decide (t.key = key ∧ lo ≤ t.ts ∧ t.ts ≤ hi)) else []

/-- Weekly collection: for each member interval of the grouping,
intersect it with the week bounds and collect the location's
transactions there; concatenate and de-duplicate (`matching_txns`). -/
def matchingTxns (txns : List Txn) (key : String) (periods : List Ivl) (w : Ivl) : List Txn :=
  ((periods.map (fun p => periodSlice txns key (max p.start w.start) (min p.stop w.stop))).flatten).dedup

/-- Daily collection: each member interval is intersected with the day
and with the analysis bounds (`daily_txns`). -/
def dailyTxnsOf (txns : List Txn) (key : String) (periods : List Ivl)
    (dayS dayE aS aE : Int) : List Txn :=
  ((periods.map (fun p =>
    periodSlice txns key (max (max dayS p.start) aS) (min (min dayE p.stop) aE))).flatten).dedup

/-- Lookup in the first-seen association list. -/
def fsLookup : List ((String × Nat) × Int) → String → Nat → Option Int
  | [], _, _ => none
  | (ku, d) :: rest, k, u => if ku = (k, u) then some d else fsLookup rest k u

/-- One step of the `user_first_transaction` build loop: record the
timestamp only on the first occurrence of `(match_key, user_id)`. -/
def fsInsert (m : List ((String × Nat) × Int)) (t : Txn) : List ((String × Nat) × Int) :=
  if (fsLookup m t.key t.user).isSome then m else m ++ [((t.key, t.user), t.ts)]

/-- The user-history index: one pass over the timestamp-sorted
transactions, keeping each key's first timestamp. -/
def buildFirstSeen (txns : List Txn) : List ((String × Nat) × Int) :=
  (sortByTs txns).foldl fsInsert []

/-- New/returning classification: a user is new iff the first-seen
timestamp falls inside some member interval of the grouping; a user
absent from the index is classified new. -/
def classifyNew (fs : List ((String × Nat) × Int)) (key : String) (u : Nat)
    (periods : List Ivl) : Bool :=
  match fsLookup fs key u with
  | some d => periods.any (fun p => decide (p.start ≤ d ∧ d ≤ p.stop))
  | none => true

/-- The exclusion test `is_in_activation_period`: the candidate window
`[s, e]` overlaps some stored activation interval of the location. -/
def isInActivationPeriod (periods : List Ivl) (s e : Int) : Bool :=
  periods.any (fun p => decide (¬(e < p.start ∨ s > p.stop)))

/-- Arithmetic mean of a list of integers, as a rational. -/
def meanQ (l : List Int) : ℚ := ((l.sum : ℤ) : ℚ) / (l.length : ℚ)

/-- Ascending sort of integers. -/
def sortInts (l : List Int) : List Int := l.insertionSort (· ≤ ·)

/-- Ascending sort of rationals. -/
def sortRats (l : List ℚ) : List ℚ := l.insertionSort (· ≤ ·)

/-- Median of a list of integers (`np.median`): middle element of the
sorted list, or the mean of the two middle elements. -/
def medianOfInts (l : List Int) : ℚ :=
  let s := sortInts l
  if s.length % 2 = 1 then ((s.getD (s.length / 2) 0 : ℤ) : ℚ)
  else (((s.getD (s.length / 2 - 1) 0 : ℤ) : ℚ) + ((s.getD (s.length / 2) 0 : ℤ) : ℚ)) / 2

/-- Median of a list of rationals (`np.median`). -/
def medianOfRats (l : List ℚ) : ℚ :=
  let s := sortRats l
  if s.length % 2 = 1 then s.getD (s.length / 2) 0
  else (s.getD (s.length / 2 - 1) 0 + s.getD (s.length / 2) 0) / 2

/-- One baseline candidate window `[bs, be]`: excluded entirely when it
overlaps any stored activation interval of the location; otherwise, if
it holds at least one transaction, it contributes its total and its
median as one sample. -/
def baselineSample (txns : List Txn) (key : String) (aps : List Ivl)
    (bs be : Int) : Option (Int × ℚ) :=
  if isInActivationPeriod aps bs be then none
  else
    let l := txns.filter (fun t => decide (t.key = key ∧ bs ≤ t.ts ∧ t.ts ≤ be))
    if l.isEmpty then none
    else some (txnSum l, medianOfInts (l.map (·.amount)))

/-- The scored window shifted back `k` weeks. -/
def shiftBack (w : Ivl) (k : Int) : Ivl := ⟨w.start - k * weekLen, w.stop - k * weekLen⟩

/-- The baseline offsets (`range(1, 5)`). -/
def offsets : List Int := [1, 2, 3, 4]

/-- Baseline samples collected over a given offset list. -/
def weeklySamplesOver (txns : List Txn) (key : String) (aps : List Ivl) (w : Ivl)
    (ks : List Int) : List (Int × ℚ) :=
  ks.filterMap (fun k => baselineSample txns key aps (shiftBack w k).start (shiftBack w k).stop)

/-- Weekly baseline samples: offsets 1 to 4, window shifted back. -/
def weeklyBaselineSamples (txns : List Txn) (key : String) (aps : List Ivl)
    (w : Ivl) : List (Int × ℚ) :=
  weeklySamplesOver txns key aps w offsets

/-- The daily loop's leftover effective bounds: the intersection of the
grouping's last member interval with the day and the analysis bounds
(the values `effective_day_start`/`effective_day_end` hold after the
collection loop finishes). -/
def dailyAnchor (periods : List Ivl) (dayS dayE aS aE : Int) : Option Ivl :=
  (periods.getLast?).map (fun p => ⟨max (max dayS p.start) aS, min (min dayE p.stop) aE⟩)

/-- Daily baseline samples over a given offset list, from the leftover
effective bounds. -/
def dailySamplesOver (txns : List Txn) (key : String) (aps : List Ivl)
    (periods : List Ivl) (dayS dayE aS aE : Int) (ks : List Int) : List (Int × ℚ) :=
  match dailyAnchor periods dayS dayE aS aE with
  | none => []
  | some v => ks.filterMap (fun k =>
      baselineSample txns key aps (v.start - k * weekLen) (v.stop - k * weekLen))

/-- Daily baseline samples: offsets 1 to 4. -/
def dailyBaselineSamples (txns : List Txn) (key : String) (aps : List Ivl)
    (periods : List Ivl) (dayS dayE aS aE : Int) : List (Int × ℚ) :=
  dailySamplesOver txns key aps periods dayS dayE aS aE offsets

/-- Baseline total: the arithmetic mean of the collected per-window
sums, absent when no sample was collected. -/
def baselineTotal (samples : List (Int × ℚ)) : Option ℚ :=
  if samples.isEmpty then none else some (meanQ (samples.map (·.1)))

/-- Baseline median: the median of the collected per-window medians,
absent when no sample was collected. -/
def baselineMedian (samples : List (Int × ℚ)) : Option ℚ :=
  if samples.isEmpty then none else some (medianOfRats (samples.map (·.2)))

/-- The restaurant name carrying the special budget cutoff. -/
def spectatorName : String := "The Bar at The Spectator"

/-- The default budget cutoff instant, `datetime(2025, 10, 13)`. -/
def defaultCutoff : Int := 1760313600

/-- The special-case budget cutoff instant, `datetime(2025, 10, 26)`. -/
def spectatorCutoff : Int := defaultCutoff + 13 * 86400

/-- The budget cutoff applicable to a scored grouping: the special date
for the one restaurant named exactly, the default date otherwise. -/
def cutoffFor (restaurantName : String) : Int :=
  if restaurantName = spectatorName then spectatorCutoff else defaultCutoff

/-- An activation record as used by the budget loop: location match
key, restaurant group id, interval, and the parsed threshold and
reward (absent when the description could not be parsed). -/
structure Activation where
  key : String
  restGroup : Nat
  start : Int
  stop : Int
  minSpend : Option Int
  reward : Option Int
  deriving DecidableEq, Repr, Inhabited

/-- The transactions of one activation's own scope (`group_txns`). -/
def actTxns (txns : List Txn) (a : Activation) : List Txn :=
  txns.filter (fun t => decide (t.key = a.key ∧ a.start ≤ t.ts ∧ t.ts ≤ a.stop))

/-- The marketing spend one group activation contributes: its own
matcher event count times its own reward; an activation with an
unparsed threshold or reward is skipped. -/
def groupSpendOne (txns : List Txn) (a : Activation) : Int :=
  match a.minSpend, a.reward with
  | some ms, some rw => (redemptionCountAll (actTxns txns a) ms : Int) * rw
  | _, _ => 0

/-- Cumulative group spend: over every activation of the restaurant
group whose start is on or after the cutoff instant. -/
def totalGroupSpend (txns : List Txn) (acts : List Activation) (g : Nat)
    (cutoff : Int) : Int :=
  ((acts.filter (fun a => decide (a.restGroup = g ∧ cutoff ≤ a.start))).map
    (groupSpendOne txns)).sum

/-- The reported remaining group budget: initial budget minus the
cumulative group spend, short-circuited to 0 when the initial budget
is not positive. -/
def remainingGroupBudget (txns : List Txn) (acts : List Activation) (g : Nat)
    (restaurantName : String) (initialBudget : Int) : Int :=
  if 0 < initialBudget then
    initialBudget - totalGroupSpend txns acts g (cutoffFor restaurantName)
  else 0

/-- Modelled from the spec: the baseline candidate window the claim
describes for a scored daily window, namely the day window itself
shifted back `k` weeks. -/
def claimedDailyBaselineWindow (dayS dayE k : Int) : Ivl :=
  ⟨dayS - k * weekLen, dayE - k * weekLen⟩

/-- The baseline candidate window the daily code actually uses for
offset `k`: the leftover effective bounds shifted back `k` weeks. -/
def codeDailyBaselineWindow (periods : List Ivl) (dayS dayE aS aE k : Int) : Option Ivl :=
  (dailyAnchor periods dayS dayE aS aE).map
    (fun v => ⟨v.start - k * weekLen, v.stop - k * weekLen⟩)

/-! ### Equation lemmas for the matcher -/

theorem matchUser_nil (all : List Txn) (ms : Int) (c : List Nat) :
    matchUser all ms [] c = ⟨[], c, []⟩ := rfl

theorem matchUser_cons_skip (all : List Txn) (ms : Int) {t : Txn} (rest : List Txn)
    {c : List Nat} (h : t.id ∈ c) :
    matchUser all ms (t :: rest) c = matchUser all ms rest c := by
  simp [matchUser, h]

theorem matchUser_cons_hit (all : List Txn) (ms : Int) {t : Txn} (rest : List Txn)
    {c : List Nat} (h : t.id ∉ c) (h2 : ms ≤ txnSum (windowOf all c t)) :
    matchUser all ms (t :: rest) c =
      ⟨mkEvent t (windowOf all c t) (txnSum (windowOf all c t)) ::
         (matchUser all ms rest (c ++ (windowOf all c t).map (·.id))).events,
       (matchUser all ms rest (c ++ (windowOf all c t).map (·.id))).consumed,
       ⟨t, windowOf all c t, txnSum (windowOf all c t), true, c⟩ ::
         (matchUser all ms rest (c ++ (windowOf all c t).map (·.id))).trace⟩ := by
  simp [matchUser, h, h2]

theorem matchUser_cons_miss (all : List Txn) (ms : Int) {t : Txn} (rest : List Txn)
    {c : List Nat} (h : t.id ∉ c) (h2 : ¬ ms ≤ txnSum (windowOf all c t)) :
    matchUser all ms (t :: rest) c =
      ⟨(matchUser all ms rest c).events, (matchUser all ms rest c).consumed,
       ⟨t, windowOf all c t, txnSum (windowOf all c t), false, c⟩ ::
         (matchUser all ms rest c).trace⟩ := by
  simp [matchUser, h, h2]

/-! ### Structural lemmas about the matcher -/

/-- The consumed set only grows along the scan. -/
theorem consumed_mono (all : List Txn) (ms : Int) :
    ∀ (l : List Txn) (c : List Nat), c ⊆ (matchUser all ms l c).consumed := by
  intro l
  induction l with
  | nil => intro c; exact fun x hx => hx
  | cons t rest ih =>
    intro c
    by_cases h : t.id ∈ c
    · rw [matchUser_cons_skip all ms rest h]; exact ih c
    · by_cases h2 : ms ≤ txnSum (windowOf all c t)
      · rw [matchUser_cons_hit all ms rest h h2]
        exact fun x hx => ih _ (List.mem_append_left _ hx)
      · rw [matchUser_cons_miss all ms rest h h2]
        exact ih c

/-- Every step of the trace opens the window of its own anchor over the
consumed set it saw, sums exactly that window, hits exactly when the
threshold is met, and its anchor was not yet consumed. -/
theorem trace_shape (all : List Txn) (ms : Int) :
    ∀ (l : List Txn) (c : List Nat), ∀ st ∈ (matchUser all ms l c).trace,
      st.window = windowOf all st.consumedBefore st.anchor ∧
      st.total = txnSum st.window ∧
      (st.hit = true ↔ ms ≤ st.total) ∧
      st.anchor.id ∉ st.consumedBefore := by
  intro l
  induction l with
  | nil => intro c st hst; rw [matchUser_nil] at hst; simp at hst
  | cons t rest ih =>
    intro c st hst
    by_cases h : t.id ∈ c
    · rw [matchUser_cons_skip all ms rest h] at hst; exact ih c st hst
    · by_cases h2 : ms ≤ txnSum (windowOf all c t)
      · rw [matchUser_cons_hit all ms rest h h2] at hst
        rcases List.mem_cons.mp hst with rfl | hmem
        · exact ⟨rfl, rfl, by simpa using h2, h⟩
        · exact ih _ st hmem
      · rw [matchUser_cons_miss all ms rest h h2] at hst
        rcases List.mem_cons.mp hst with rfl | hmem
        · exact ⟨rfl, rfl, by simpa using h2, h⟩
        · exact ih c st hmem

/-- Every transaction of a qualifying window is consumed in the final
consumed set. -/
theorem hit_window_consumed (all : List Txn) (ms : Int) :
    ∀ (l : List Txn) (c : List Nat), ∀ st ∈ (matchUser all ms l c).trace,
      st.hit = true → ∀ u ∈ st.window, u.id ∈ (matchUser all ms l c).consumed := by
  intro l
  induction l with
  | nil => intro c st hst; rw [matchUser_nil] at hst; simp at hst
  | cons t rest ih =>
    intro c st hst hhit u hu
    by_cases h : t.id ∈ c
    · rw [matchUser_cons_skip all ms rest h] at hst ⊢
      exact ih c st hst hhit u hu
    · by_cases h2 : ms ≤ txnSum (windowOf all c t)
      · rw [matchUser_cons_hit all ms rest h h2] at hst ⊢
        rcases List.mem_cons.mp hst with rfl | hmem
        · exact consumed_mono all ms rest _
            (List.mem_append_right _ (List.mem_map_of_mem (·.id) hu))
        · exact ih _ st hmem hhit u hu
      · rw [matchUser_cons_miss all ms rest h h2] at hst ⊢
        rcases List.mem_cons.mp hst with rfl | hmem
        · simp at hhit
        · exact ih c st hmem hhit u hu

/-- The events are exactly the qualifying steps of the trace, each
materialized from its own anchor, window and sum. -/
theorem events_eq_hits (all : List Txn) (ms : Int) :
    ∀ (l : List Txn) (c : List Nat),
      (matchUser all ms l c).events =
        ((matchUser all ms l c).trace.filter (fun st => st.hit)).map
          (fun st => mkEvent st.anchor st.window st.total) := by
  intro l
  induction l with
  | nil => intro c; rw [matchUser_nil]; rfl
  | cons t rest ih =>
    intro c
    by_cases h : t.id ∈ c
    · rw [matchUser_cons_skip all ms rest h]; exact ih c
    · by_cases h2 : ms ≤ txnSum (windowOf all c t)
      · rw [matchUser_cons_hit all ms rest h h2]
        simp [List.filter_cons, ih]
      · rw [matchUser_cons_miss all ms rest h h2]
        simp [List.filter_cons, ih]

/-- The trace anchors form a subsequence of the scanned stream: the
scan only ever advances. -/
theorem trace_anchors_sublist (all : List Txn) (ms : Int) :
    ∀ (l : List Txn) (c : List Nat),
      ((matchUser all ms l c).trace.map (·.anchor)).Sublist l := by
  intro l
  induction l with
  | nil => intro c; rw [matchUser_nil]; exact List.Sublist.refl []
  | cons t rest ih =>
    intro c
    by_cases h : t.id ∈ c
    · rw [matchUser_cons_skip all ms rest h]
      exact (ih c).cons t
    · by_cases h2 : ms ≤ txnSum (windowOf all c t)
      · rw [matchUser_cons_hit all ms rest h h2]
        exact (ih _).cons₂ t
      · rw [matchUser_cons_miss all ms rest h h2]
        exact (ih c).cons₂ t

/-- The first step of the trace sees exactly the incoming consumed set. -/
theorem trace_head_consumed (all : List Txn) (ms : Int) :
    ∀ (l : List Txn) (c : List Nat) (st : Step),
      (matchUser all ms l c).trace.head? = some st → st.consumedBefore = c := by
  intro l
  induction l with
  | nil => intro c st hst; rw [matchUser_nil] at hst; simp at hst
  | cons t rest ih =>
    intro c st hst
    by_cases h : t.id ∈ c
    · rw [matchUser_cons_skip all ms rest h] at hst; exact ih c st hst
    · by_cases h2 : ms ≤ txnSum (windowOf all c t)
      · rw [matchUser_cons_hit all ms rest h h2] at hst
        simp at hst
        rw [← hst]
      · rw [matchUser_cons_miss all ms rest h h2] at hst
        simp at hst
        rw [← hst]

/-- How the consumed set evolves from one step to the next: a
qualifying step adds its whole window, a failed step adds nothing. -/
def stepRel (a b : Step) : Prop :=
  b.consumedBefore =
    if a.hit then a.consumedBefore ++ a.window.map (·.id) else a.consumedBefore

/-- Consecutive trace steps are related by `stepRel`: in particular a
failed step leaves the consumed set unchanged, so its anchor and its
whole window stay unconsumed at the next step. -/
theorem trace_chain (all : List Txn) (ms : Int) :
    ∀ (l : List Txn) (c : List Nat), ((matchUser all ms l c).trace).Chain' stepRel := by
  intro l
  induction l with
  | nil => intro c; rw [matchUser_nil]; exact List.chain'_nil
  | cons t rest ih =>
    intro c
    by_cases h : t.id ∈ c
    · rw [matchUser_cons_skip all ms rest h]; exact ih c
    · by_cases h2 : ms ≤ txnSum (windowOf all c t)
      · rw [matchUser_cons_hit all ms rest h h2]
        refine List.chain'_cons'.mpr ⟨?_, ih _⟩
        intro b hb
        have := trace_head_consumed all ms rest _ b hb
        simp [stepRel, this]
      · rw [matchUser_cons_miss all ms rest h h2]
        refine List.chain'_cons'.mpr ⟨?_, ih c⟩
        intro b hb
        have := trace_head_consumed all ms rest c b hb
        simp [stepRel, this, h2]

/-- A window is a filtered sublist of the scanned stream. -/
theorem windowOf_sublist (all : List Txn) (c : List Nat) (t : Txn) :
    (windowOf all c t).Sublist all := List.filter_sublist all

/-- Window membership spelled out: in the stream, inside the closed
one-hour interval of the anchor, and not yet consumed. -/
theorem mem_windowOf {all : List Txn} {c : List Nat} {t u : Txn} :
    u ∈ windowOf all c t ↔
      u ∈ all ∧ t.ts ≤ u.ts ∧ u.ts ≤ t.ts + hourLen ∧ u.id ∉ c := by
  simp [windowOf, List.mem_filter]

/-- The ids of a window repeat none of the stream's ids. -/
theorem windowOf_ids_nodup {all : List Txn} (hall : (all.map (·.id)).Nodup)
    (c : List Nat) (t : Txn) : ((windowOf all c t).map (·.id)).Nodup :=
  hall.sublist ((windowOf_sublist all c t).map (·.id))

/-- Every id an event consumes is the id of some stream transaction. -/
theorem events_ids_mem (all : List Txn) (ms : Int) :
    ∀ (l : List Txn) (c : List Nat), ∀ ev ∈ (matchUser all ms l c).events,
      ∀ i ∈ ev.consumedIds, ∃ u ∈ all, u.id = i := by
  intro l
  induction l with
  | nil => intro c ev hev; rw [matchUser_nil] at hev; simp at hev
  | cons t rest ih =>
    intro c ev hev i hi
    by_cases h : t.id ∈ c
    · rw [matchUser_cons_skip all ms rest h] at hev; exact ih c ev hev i hi
    · by_cases h2 : ms ≤ txnSum (windowOf all c t)
      · rw [matchUser_cons_hit all ms rest h h2] at hev
        rcases List.mem_cons.mp hev with rfl | hmem
        · obtain ⟨u, hu, rfl⟩ := List.mem_map.mp hi
          exact ⟨u, (windowOf_sublist all c t).subset hu, rfl⟩
        · exact ih _ ev hmem i hi
      · rw [matchUser_cons_miss all ms rest h h2] at hev
        exact ih c ev hev i hi

/-- When the stream's ids are distinct, the ids consumed across all of
one run's events contain no duplicates, and never touch the incoming
consumed set. -/
theorem events_ids_nodup (all : List Txn) (ms : Int) (hall : (all.map (·.id)).Nodup) :
    ∀ (l : List Txn) (c : List Nat),
      ((((matchUser all ms l c).events).map (·.consumedIds)).flatten).Nodup ∧
      ∀ ev ∈ (matchUser all ms l c).events, ∀ i ∈ ev.consumedIds, i ∉ c := by
  intro l
  induction l with
  | nil =>
    intro c
    refine ⟨by rw [matchUser_nil]; exact List.nodup_nil, ?_⟩
    intro ev hev; rw [matchUser_nil] at hev; simp at hev
  | cons t rest ih =>
    intro c
    by_cases h : t.id ∈ c
    · rw [matchUser_cons_skip all ms rest h]; exact ih c
    · by_cases h2 : ms ≤ txnSum (windowOf all c t)
      · rw [matchUser_cons_hit all ms rest h h2]
        obtain ⟨ihn, ihf⟩ := ih (c ++ (windowOf all c t).map (·.id))
        constructor
        · simp only [List.map_cons, List.flatten_cons]
          refine (windowOf_ids_nodup hall c t).append ihn ?_
          intro i hiw hirest
          obtain ⟨ids, hids, hiin⟩ := List.mem_flatten.mp hirest
          obtain ⟨ev, hev, rfl⟩ := List.mem_map.mp hids
          exact ihf ev hev i hiin (List.mem_append_right c hiw)
        · intro ev hev i hi
          rcases List.mem_cons.mp hev with rfl | hmem
          · obtain ⟨u, hu, rfl⟩ := List.mem_map.mp hi
            exact (mem_windowOf.mp hu).2.2.2
          · intro hic
            exact ihf ev hmem i hi (List.mem_append_left _ hic)
      · rw [matchUser_cons_miss all ms rest h h2]
        exact ih c

/-! ### C1, C3, C4: the greedy redemption matcher -/

/-- C1: for every processed stream, an anchored window produces an
event iff its sum reaches `min_spend`; a qualifying window's every
transaction ends up consumed; every materialized event's window sum is
at least `min_spend` (so a window whose sum falls short never produces
an event); and the events are in bijection with the qualifying steps. -/
theorem window_threshold_correct (all : List Txn) (ms : Int) (l : List Txn) (c : List Nat) :
    (∀ st ∈ (matchUser all ms l c).trace,
        st.total = txnSum st.window ∧ (st.hit = true ↔ ms ≤ st.total)) ∧
    (∀ st ∈ (matchUser all ms l c).trace, st.hit = true →
        ∀ u ∈ st.window, u.id ∈ (matchUser all ms l c).consumed) ∧
    (∀ ev ∈ (matchUser all ms l c).events, ms ≤ ev.windowSum) ∧
    (matchUser all ms l c).events.length =
      ((matchUser all ms l c).trace.filter (fun st => st.hit)).length := by
  refine ⟨?_, hit_window_consumed all ms l c, ?_, ?_⟩
  · intro st hst
    have h := trace_shape all ms l c st hst
    exact ⟨h.2.1, h.2.2.1⟩
  · intro ev hev
    rw [events_eq_hits] at hev
    obtain ⟨st, hst, rfl⟩ := List.mem_map.mp hev
    have hfil := List.mem_filter.mp hst
    have h := trace_shape all ms l c st hfil.1
    show ms ≤ st.total
    exact h.2.2.1.mp (by simpa using hfil.2)
  · rw [events_eq_hits, List.length_map]

/-- Stream exhibiting a rejected anchor followed by a later anchor. -/
def anchorExA : Txn := ⟨0, "k", 1, 0, 1⟩

/-- A second transaction two hours later, large enough to qualify. -/
def anchorExB : Txn := ⟨1, "k", 1, 7200, 100⟩

/-- The two-transaction stream of the anchor counterexample. -/
def anchorExStream : List Txn := [anchorExA, anchorExB]

/-- C3 counterexample: with a $1 transaction at time 0 (window sum 1 <
min_spend 50, rejected) and a $100 transaction two hours later, the
second window is anchored at the later transaction even though the
rejected one is still earlier and not yet consumed — so not every
window is anchored at the earliest not-yet-consumed transaction. -/
theorem anchor_not_globally_earliest :
    ¬ (∀ st ∈ (matchUser anchorExStream 50 anchorExStream []).trace,
        ∀ u ∈ anchorExStream, u.id ∉ st.consumedBefore → st.anchor.ts ≤ u.ts) := by
  decide

/-- C3 amended: every window's anchor was itself unconsumed when
reached, anchors advance through the sorted stream in scan order (the
earliest unconsumed transaction at or after the scan position), and
the window collects exactly the not-yet-consumed stream transactions
whose timestamp lies in `[anchor, anchor + 1 hour]`, both ends
included; in particular a transaction exactly 60 minutes after the
anchor is included. -/
theorem window_anchor_and_contents (all : List Txn) (ms : Int) (l : List Txn) (c : List Nat) :
    (∀ st ∈ (matchUser all ms l c).trace, st.anchor.id ∉ st.consumedBefore) ∧
    ((matchUser all ms l c).trace.map (·.anchor)).Sublist l ∧
    (∀ st ∈ (matchUser all ms l c).trace, ∀ u,
        u ∈ st.window ↔ u ∈ all ∧ st.anchor.ts ≤ u.ts ∧
          u.ts ≤ st.anchor.ts + hourLen ∧ u.id ∉ st.consumedBefore) ∧
    (∀ st ∈ (matchUser all ms l c).trace, ∀ u ∈ all,
        u.id ∉ st.consumedBefore → u.ts = st.anchor.ts + hourLen → u ∈ st.window) := by
  have hshape := trace_shape all ms l c
  refine ⟨fun st hst => (hshape st hst).2.2.2, trace_anchors_sublist all ms l c, ?_, ?_⟩
  · intro st hst u
    rw [(hshape st hst).1]
    exact mem_windowOf
  · intro st hst u hu hunc hts
    rw [(hshape st hst).1]
    refine mem_windowOf.mpr ⟨hu, ?_, le_of_eq hts, hunc⟩
    rw [hts]
    simp [hourLen]

/-- Witness for the amended C3 statement at the counterexample stream. -/
theorem window_anchor_and_contents_witness :
    ((matchUser anchorExStream 50 anchorExStream []).trace.map (·.anchor)).Sublist
      anchorExStream :=
  (window_anchor_and_contents anchorExStream 50 anchorExStream []).2.1

/-- First transaction of the fold-in example: $5 at time 0. -/
def foldExA : Txn := ⟨0, "k", 1, 0, 5⟩

/-- Second transaction of the fold-in example: $10, same instant. -/
def foldExB : Txn := ⟨1, "k", 1, 0, 10⟩

/-- The fold-in example stream; with `min_spend = 100` both anchors
fail, and the first (rejected) anchor lies inside the second anchor's
window. -/
def foldExStream : List Txn := [foldExA, foldExB]

/-- C4: a window whose sum falls short of `min_spend` creates no event
(events correspond exactly to qualifying steps); the failed step
passes its consumed set on unchanged, so its anchor is left
unconsumed; the scan advances, every new anchor being a later stream
element that was itself unconsumed when reached; and for some input a
rejected anchor transaction is later folded into a subsequent anchor's
window when it lies within that window's hour. -/
theorem failed_anchor_behavior (all : List Txn) (ms : Int) (l : List Txn) (c : List Nat) :
    ((matchUser all ms l c).events.length =
      ((matchUser all ms l c).trace.filter (fun st => st.hit)).length) ∧
    ((matchUser all ms l c).trace).Chain' stepRel ∧
    (∀ st ∈ (matchUser all ms l c).trace, st.anchor.id ∉ st.consumedBefore) ∧
    ((matchUser all ms l c).trace.map (·.anchor)).Sublist l ∧
    (((matchUser foldExStream 100 foldExStream []).trace.getD 0 default).hit = false ∧
      ((matchUser foldExStream 100 foldExStream []).trace.getD 0 default).anchor = foldExA ∧
      foldExA ∈ ((matchUser foldExStream 100 foldExStream []).trace.getD 1 default).window) := by
  refine ⟨?_, trace_chain all ms l c,
    fun st hst => (trace_shape all ms l c st hst).2.2.2,
    trace_anchors_sublist all ms l c, by decide, by decide, by decide⟩
  rw [events_eq_hits, List.length_map]

/-! ### C2: no double consumption -/

/-- The sorted per-user stream is a permutation of the user's filtered
transactions. -/
theorem userStream_perm (txns : List Txn) (u : Nat) :
    (userStream txns u).Perm (txns.filter (fun t => decide (t.user = u))) :=
  List.perm_insertionSort _ _

/-- Membership in a user's stream. -/
theorem mem_userStream {txns : List Txn} {u : Nat} {t : Txn} :
    t ∈ userStream txns u ↔ t ∈ txns ∧ t.user = u := by
  rw [(userStream_perm txns u).mem_iff]
  simp [List.mem_filter]

/-- Distinct transaction ids stay distinct in each user's stream. -/
theorem userStream_ids_nodup {txns : List Txn} (hids : (txns.map (·.id)).Nodup)
    (u : Nat) : ((userStream txns u).map (·.id)).Nodup := by
  rw [((userStream_perm txns u).map (·.id)).nodup_iff]
  exact hids.sublist ((List.filter_sublist txns).map (·.id))

/-- A flat map over distinct keys whose value lists are duplicate-free
and drawn from pairwise disjoint pools is duplicate-free. -/
theorem nodup_flatMap_of_disjoint {α β : Type} :
    ∀ (us : List α) (F G : α → List β), us.Nodup →
      (∀ u ∈ us, (F u).Nodup) → (∀ u ∈ us, ∀ i ∈ F u, i ∈ G u) →
      (∀ u v, u ≠ v → ∀ i, i ∈ G u → i ∈ G v → False) →
      (us.flatMap F).Nodup
  | [], _, _, _, _, _, _ => List.nodup_nil
  | u :: rest, F, G, hus, hF, hsub, hdis => by
    rw [List.flatMap_cons]
    refine (hF u (List.mem_cons_self u rest)).append
      (nodup_flatMap_of_disjoint rest F G hus.of_cons
        (fun v hv => hF v (List.mem_cons_of_mem u hv))
        (fun v hv => hsub v (List.mem_cons_of_mem u hv)) hdis) ?_
    intro i hiF hirest
    obtain ⟨v, hv, hiv⟩ := List.mem_flatMap.mp hirest
    have huv : u ≠ v := fun he => (List.nodup_cons.mp hus).1 (he ▸ hv)
    exact hdis u v huv i (hsub u (List.mem_cons_self u rest) i hiF)
      (hsub v (List.mem_cons_of_mem u hv) i hiv)

/-- C2: when the input transactions carry distinct ids, each
transaction is consumed by at most one RedemptionEvent per scoring
invocation: for each single user the union of `consumed_transaction_ids`
across that user's events has no duplicates, and across the whole
invocation (all users of the scope) the union of
`consumed_transaction_ids` over all events still has no duplicates, so
no transaction appears in events of two different windows. -/
theorem no_double_consumption (txns : List Txn) (ms : Int)
    (hids : (txns.map (·.id)).Nodup) :
    (∀ u : Nat,
      (((runUser (userStream txns u) ms).events.map (·.consumedIds)).flatten).Nodup) ∧
    (((allEvents txns ms).map (·.consumedIds)).flatten).Nodup := by
  have huser : ∀ u : Nat,
      (((runUser (userStream txns u) ms).events.map (·.consumedIds)).flatten).Nodup :=
    fun u => (events_ids_nodup _ ms (userStream_ids_nodup hids u) _ []).1
  refine ⟨huser, ?_⟩
  rw [← List.flatMap_def]
  unfold allEvents
  rw [List.flatMap_assoc]
  refine nodup_flatMap_of_disjoint (usersOf txns)
    (fun u => (runUser (userStream txns u) ms).events.flatMap (·.consumedIds))
    (fun u => (txns.filter (fun t => decide (t.user = u))).map (·.id))
    (List.nodup_dedup _)
    (fun u _ => by
      show ((runUser (userStream txns u) ms).events.flatMap (·.consumedIds)).Nodup
      rw [List.flatMap_def]; exact huser u) ?_ ?_
  · intro u _ i hi
    obtain ⟨ev, hev, hiev⟩ := List.mem_flatMap.mp hi
    obtain ⟨t, ht, rfl⟩ := events_ids_mem _ ms _ [] ev hev i hiev
    have hmem := mem_userStream.mp ht
    have hfilt : t ∈ txns.filter (fun t => decide (t.user = u)) :=
      List.mem_filter.mpr ⟨hmem.1, by simp [hmem.2]⟩
    exact List.mem_map_of_mem (·.id) hfilt
  · intro u v huv i hiu hiv
    obtain ⟨a, ha, hai⟩ := List.mem_map.mp hiu
    obtain ⟨b, hb, hbi⟩ := List.mem_map.mp hiv
    have hau := List.mem_filter.mp ha
    have hbv := List.mem_filter.mp hb
    have hab : a = b :=
      List.inj_on_of_nodup_map hids hau.1 hbv.1 (by rw [hai, hbi])
    apply huv
    have h1 : a.user = u := by simpa using hau.2
    have h2 : b.user = v := by simpa using hbv.2
    rw [← h1, ← h2, hab]

/-- Two users' transactions, distinct ids, for the C2 witness. -/
def dupExTxns : List Txn := [⟨0, "k", 1, 0, 30⟩, ⟨1, "k", 2, 0, 40⟩]

/-- Witness for C2: the no-duplicates conclusion holds at a concrete
two-user scope whose ids are distinct. -/
theorem no_double_consumption_witness :
    ((dupExTxns.map (·.id)).Nodup) ∧
    (((allEvents dupExTxns 10).map (·.consumedIds)).flatten).Nodup :=
  ⟨by decide, (no_double_consumption dupExTxns 10 (by decide)).2⟩

/-! ### C5: period transaction collection -/

/-- Membership in one effective sub-interval slice. -/
theorem mem_periodSlice {txns : List Txn} {key : String} {lo hi : Int} {t : Txn} :
    t ∈ periodSlice txns key lo hi ↔
      t ∈ txns ∧ t.key = key ∧ lo ≤ t.ts ∧ t.ts ≤ hi := by
  unfold periodSlice
  split
  · simp [List.mem_filter, and_assoc]
  · rename_i hlt
    simp only [List.not_mem_nil, false_iff]
    rintro ⟨-, -, h1, h2⟩
    exact hlt (h1.trans h2)

/-- C5: a transaction enters the weekly collection iff its match key
equals the grouping's and its timestamp lies in the intersection of at
least one member interval with the week bounds; the collection is
de-duplicated; the daily collection (whose day lies inside the
analysis bounds, as every scored day does) behaves the same way with
the day as the period — in both cases membership is bounded only by
the member intervals, never by an overall min-start/max-end span. -/
theorem collection_membership (txns : List Txn) (key : String) (periods : List Ivl)
    (w : Ivl) (dayS dayE aS aE : Int) (hS : aS ≤ dayS) (hE : dayE ≤ aE) :
    (∀ t : Txn, t ∈ matchingTxns txns key periods w ↔
        t ∈ txns ∧ t.key = key ∧ ∃ p ∈ periods,
          max p.start w.start ≤ t.ts ∧ t.ts ≤ min p.stop w.stop) ∧
    (matchingTxns txns key periods w).Nodup ∧
    (∀ t : Txn, t ∈ dailyTxnsOf txns key periods dayS dayE aS aE ↔
        t ∈ txns ∧ t.key = key ∧ ∃ p ∈ periods,
          max p.start dayS ≤ t.ts ∧ t.ts ≤ min p.stop dayE) ∧
    (dailyTxnsOf txns key periods dayS dayE aS aE).Nodup := by
  have e1 : ∀ p : Ivl, max (max dayS p.start) aS = max p.start dayS := fun p => by
    rw [max_comm dayS p.start]
    exact max_eq_left (hS.trans (le_max_right p.start dayS))
  have e2 : ∀ p : Ivl, min (min dayE p.stop) aE = min p.stop dayE := fun p => by
    rw [min_comm dayE p.stop]
    exact min_eq_left ((min_le_right p.stop dayE).trans hE)
  refine ⟨?_, List.nodup_dedup _, ?_, List.nodup_dedup _⟩
  · intro t
    unfold matchingTxns
    rw [List.mem_dedup, List.mem_flatten]
    constructor
    · rintro ⟨l, hl, htl⟩
      obtain ⟨p, hp, rfl⟩ := List.mem_map.mp hl
      obtain ⟨h1, h2, h3, h4⟩ := mem_periodSlice.mp htl
      exact ⟨h1, h2, p, hp, h3, h4⟩
    · rintro ⟨h1, h2, p, hp, h3, h4⟩
      exact ⟨_, List.mem_map_of_mem _ hp, mem_periodSlice.mpr ⟨h1, h2, h3, h4⟩⟩
  · intro t
    unfold dailyTxnsOf
    rw [List.mem_dedup, List.mem_flatten]
    constructor
    · rintro ⟨l, hl, htl⟩
      obtain ⟨p, hp, rfl⟩ := List.mem_map.mp hl
      rw [e1 p, e2 p] at htl
      obtain ⟨h1, h2, h3, h4⟩ := mem_periodSlice.mp htl
      exact ⟨h1, h2, p, hp, h3, h4⟩
    · rintro ⟨h1, h2, p, hp, h3, h4⟩
      refine ⟨_, List.mem_map_of_mem _ hp, ?_⟩
      rw [e1 p, e2 p]
      exact mem_periodSlice.mpr ⟨h1, h2, h3, h4⟩

/-- Witness for C5 at a concrete scope: a transaction lying in the
second member interval (outside the first) is collected, and one lying
between the intervals — inside the overall span — is not. -/
theorem collection_membership_witness :
    ((-50 : Int) ≤ 0 ∧ (86399 : Int) ≤ 90000) ∧
    (⟨0, "k", 1, 250, 10⟩ : Txn) ∈
      matchingTxns [⟨0, "k", 1, 250, 10⟩, ⟨1, "k", 1, 150, 10⟩]
        "k" [⟨0, 100⟩, ⟨200, 300⟩] ⟨0, 86399⟩ ∧
    (⟨1, "k", 1, 150, 10⟩ : Txn) ∉
      matchingTxns [⟨0, "k", 1, 250, 10⟩, ⟨1, "k", 1, 150, 10⟩]
        "k" [⟨0, 100⟩, ⟨200, 300⟩] ⟨0, 86399⟩ ∧
    (matchingTxns [⟨0, "k", 1, 250, 10⟩, ⟨1, "k", 1, 150, 10⟩]
        "k" [⟨0, 100⟩, ⟨200, 300⟩] ⟨0, 86399⟩).Nodup := by
  refine ⟨⟨by decide, by decide⟩, ?_, ?_, ?_⟩
  · exact ((collection_membership
      [⟨0, "k", 1, 250, 10⟩, ⟨1, "k", 1, 150, 10⟩] "k" [⟨0, 100⟩, ⟨200, 300⟩]
      ⟨0, 86399⟩ 0 86399 (-50) 90000 (by decide) (by decide)).1 _).mpr
      (by decide)
  · intro hmem
    have := ((collection_membership
      [⟨0, "k", 1, 250, 10⟩, ⟨1, "k", 1, 150, 10⟩] "k" [⟨0, 100⟩, ⟨200, 300⟩]
      ⟨0, 86399⟩ 0 86399 (-50) 90000 (by decide) (by decide)).1 _).mp hmem
    revert this
    decide
  · exact (collection_membership
      [⟨0, "k", 1, 250, 10⟩, ⟨1, "k", 1, 150, 10⟩] "k" [⟨0, 100⟩, ⟨200, 300⟩]
      ⟨0, 86399⟩ 0 86399 (-50) 90000 (by decide) (by decide)).2.1

/-! ### C6: new/returning classification -/

/-- Lookup distributes over appended association lists. -/
theorem fsLookup_append (m1 m2 : List ((String × Nat) × Int)) (k : String) (u : Nat) :
    fsLookup (m1 ++ m2) k u =
      match fsLookup m1 k u with
      | some d => some d
      | none => fsLookup m2 k u := by
  induction m1 with
  | nil => rfl
  | cons e rest ih =>
    obtain ⟨ku, d⟩ := e
    by_cases h : ku = (k, u)
    · simp [fsLookup, h]
    · simp only [List.cons_append, fsLookup, if_neg h]
      exact ih

/-- The build loop records, for each `(match_key, user_id)`, the
timestamp of the first matching transaction of the scanned list. -/
theorem buildFirstSeen_foldl (k : String) (u : Nat) :
    ∀ (l : List Txn) (acc : List ((String × Nat) × Int)),
      fsLookup (l.foldl fsInsert acc) k u =
        match fsLookup acc k u with
        | some d => some d
        | none => (l.find? (fun t => decide (t.key = k ∧ t.user = u))).map (·.ts) := by
  intro l
  induction l with
  | nil =>
    intro acc
    simp only [List.foldl_nil]
    cases h : fsLookup acc k u <;> simp [h]
  | cons t rest ih =>
    intro acc
    rw [List.foldl_cons, ih (fsInsert acc t)]
    by_cases hmatch : t.key = k ∧ t.user = u
    · rw [List.find?_cons_of_pos _ (by simp [hmatch.1, hmatch.2])]
      unfold fsInsert
      by_cases hacc : (fsLookup acc t.key t.user).isSome = true
      · rw [if_pos hacc]
        rw [hmatch.1, hmatch.2] at hacc
        obtain ⟨d, hd⟩ := Option.isSome_iff_exists.mp hacc
        rw [hd]
      · rw [if_neg hacc]
        rw [hmatch.1, hmatch.2] at hacc
        have hn : fsLookup acc k u = none := by
          cases h2 : fsLookup acc k u with
          | none => rfl
          | some d => rw [h2] at hacc; simp at hacc
        have he : fsLookup [((t.key, t.user), t.ts)] k u = some t.ts := by
          simp [fsLookup, hmatch.1, hmatch.2]
        simp [fsLookup_append, hn, he]
    · rw [List.find?_cons_of_neg _ (by simp [hmatch])]
      have hsame : fsLookup (fsInsert acc t) k u = fsLookup acc k u := by
        unfold fsInsert
        by_cases hacc : (fsLookup acc t.key t.user).isSome = true
        · rw [if_pos hacc]
        · rw [if_neg hacc, fsLookup_append]
          have hne : (t.key, t.user) ≠ (k, u) := by
            intro hp
            exact hmatch ⟨congrArg Prod.fst hp, congrArg Prod.snd hp⟩
          have he : fsLookup [((t.key, t.user), t.ts)] k u = none := by
            simp [fsLookup, hne]
          rw [he]
          cases fsLookup acc k u <;> rfl
      rw [hsame]

/-- The user-history index maps `(match_key, user_id)` to the
timestamp of that key's first transaction in timestamp order. -/
theorem firstSeen_lookup (txns : List Txn) (k : String) (u : Nat) :
    fsLookup (buildFirstSeen txns) k u =
      ((sortByTs txns).find? (fun t => decide (t.key = k ∧ t.user = u))).map (·.ts) := by
  unfold buildFirstSeen
  rw [buildFirstSeen_foldl k u (sortByTs txns) []]
  rfl

/-- C6: for every grouping and user, the classification is computed
from the user-history index alone — no reporting period enters it: the
user is classified new iff the first-seen timestamp of
`(location_key, user_id)` falls inside some member interval of the
grouping, and a user absent from the index is classified new; the
index itself holds the timestamp of the key's earliest transaction. -/
theorem new_user_classification (txns : List Txn) (fs : List ((String × Nat) × Int))
    (key : String) (u : Nat) (periods : List Ivl) :
    (classifyNew fs key u periods = true ↔
      (fsLookup fs key u = none ∨
        ∃ d, fsLookup fs key u = some d ∧ ∃ p ∈ periods, p.start ≤ d ∧ d ≤ p.stop)) ∧
    (fsLookup (buildFirstSeen txns) key u =
      ((sortByTs txns).find? (fun t => decide (t.key = key ∧ t.user = u))).map (·.ts)) := by
  refine ⟨?_, firstSeen_lookup txns key u⟩
  unfold classifyNew
  cases h : fsLookup fs key u with
  | none => simp
  | some d => simp [List.any_eq_true]

/-! ### C7, C8: baseline sampling -/

/-- The exclusion test spelled out as the claim's overlap condition. -/
theorem isInActivationPeriod_iff {aps : List Ivl} {s e : Int} :
    isInActivationPeriod aps s e = true ↔
      ∃ p ∈ aps, ¬(e < p.start ∨ s > p.stop) := by
  simp [isInActivationPeriod]

/-- Offsets mapped to `none` contribute nothing to a `filterMap`. -/
theorem filterMap_drop_none {α β : Type} [DecidableEq α] (f : α → Option β) (k : α)
    (hk : f k = none) :
    ∀ l : List α, l.filterMap f = (l.filter (fun x => decide (x ≠ k))).filterMap f := by
  intro l
  induction l with
  | nil => rfl
  | cons a rest ih =>
    by_cases h : a = k
    · subst h
      rw [List.filterMap_cons, hk, List.filter_cons]
      simp [ih]
    · rw [List.filterMap_cons, List.filter_cons]
      cases hfa : f a <;> simp [h, List.filterMap_cons, hfa, ih]

/-- Stored activation intervals covering every shifted window of the
exclusion witness. -/
def exclusionAps : List Ivl := [⟨-2000000, 2000000⟩]

/-- C7: a baseline candidate window overlapping any stored activation
interval for the location — the overlap test being
NOT(window.end < interval.start OR window.start > interval.end) —
contributes no sample for its offset: the collected sample list, and
hence the baseline total and baseline median derived from it, are
those computed over the remaining offsets only. -/
theorem baseline_exclusion (txns : List Txn) (key : String) (aps : List Ivl)
    (w : Ivl) (k : Int) (hk : k ∈ offsets)
    (hov : isInActivationPeriod aps (shiftBack w k).start (shiftBack w k).stop = true) :
    (∃ p ∈ aps, ¬((shiftBack w k).stop < p.start ∨ (shiftBack w k).start > p.stop)) ∧
    baselineSample txns key aps (shiftBack w k).start (shiftBack w k).stop = none ∧
    weeklyBaselineSamples txns key aps w =
      weeklySamplesOver txns key aps w (offsets.filter (fun x => decide (x ≠ k))) ∧
    baselineTotal (weeklyBaselineSamples txns key aps w) =
      baselineTotal
        (weeklySamplesOver txns key aps w (offsets.filter (fun x => decide (x ≠ k)))) ∧
    baselineMedian (weeklyBaselineSamples txns key aps w) =
      baselineMedian
        (weeklySamplesOver txns key aps w (offsets.filter (fun x => decide (x ≠ k)))) := by
  have hnone : baselineSample txns key aps
      (shiftBack w k).start (shiftBack w k).stop = none := by
    simp [baselineSample, hov]
  have hsamples : weeklyBaselineSamples txns key aps w =
      weeklySamplesOver txns key aps w (offsets.filter (fun x => decide (x ≠ k))) := by
    unfold weeklyBaselineSamples weeklySamplesOver
    exact filterMap_drop_none
      (fun j => baselineSample txns key aps (shiftBack w j).start (shiftBack w j).stop)
      k hnone offsets
  exact ⟨isInActivationPeriod_iff.mp hov, hnone, hsamples,
    congrArg baselineTotal hsamples, congrArg baselineMedian hsamples⟩

/-- Witness for C7: with a stored interval covering every shifted
window, offset 1 contributes no sample. -/
theorem baseline_exclusion_witness :
    baselineSample [] "k" exclusionAps
      (shiftBack ⟨0, 100⟩ 1).start (shiftBack ⟨0, 100⟩ 1).stop = none :=
  (baseline_exclusion [] "k" exclusionAps ⟨0, 100⟩ 1 (by decide) (by decide)).2.1

/-- C8 amended: the weekly baseline candidates are exactly the scored
week window shifted back k weeks for k = 1..4, and among non-excluded
candidates with at least one transaction the baseline total is the
arithmetic mean of the per-window sums and the baseline median is the
median of the per-window medians; the daily baseline candidates,
however, are not the scored day window shifted — they shift the
intersection of the grouping's last member interval with the day and
the analysis bounds (the collection loop's leftover bounds). -/
theorem baseline_windows_and_aggregation (txns : List Txn) (key : String)
    (aps : List Ivl) (w : Ivl) (periods : List Ivl) (dayS dayE aS aE : Int)
    (p : Ivl) (hlast : periods.getLast? = some p)
    (samples : List (Int × ℚ)) (hs : samples ≠ []) :
    weeklyBaselineSamples txns key aps w =
      offsets.filterMap (fun k => baselineSample txns key aps
        (w.start - k * weekLen) (w.stop - k * weekLen)) ∧
    dailyBaselineSamples txns key aps periods dayS dayE aS aE =
      offsets.filterMap (fun k => baselineSample txns key aps
        (max (max dayS p.start) aS - k * weekLen)
        (min (min dayE p.stop) aE - k * weekLen)) ∧
    baselineTotal samples = some (meanQ (samples.map (·.1))) ∧
    baselineMedian samples = some (medianOfRats (samples.map (·.2))) ∧
    meanQ (samples.map (·.1)) =
      (((samples.map (·.1)).sum : ℤ) : ℚ) / ((samples.map (·.1)).length : ℚ) := by
  refine ⟨rfl, ?_, ?_, ?_, rfl⟩
  · unfold dailyBaselineSamples dailySamplesOver dailyAnchor
    rw [hlast]
    rfl
  · simp [baselineTotal, List.isEmpty_iff, hs]
  · simp [baselineMedian, List.isEmpty_iff, hs]

/-- Witness for the amended C8 statement at concrete data. -/
theorem baseline_windows_and_aggregation_witness :
    baselineTotal [((10 : Int), (5 : ℚ))] = some (meanQ [10]) :=
  (baseline_windows_and_aggregation [] "k" [] ⟨0, 100⟩ [⟨0, 100⟩] 0 86399 (-50) 90000
    ⟨0, 100⟩ (by decide) [((10 : Int), (5 : ℚ))] (by simp)).2.2.1

/-- Member intervals of the daily-baseline counterexample grouping. -/
def dayExPeriods : List Ivl := [⟨0, 100⟩, ⟨200, 300⟩]

/-- A transaction inside the claimed (day-window) baseline for offset
1, but outside every code baseline window. -/
def dayExTxn : Txn := ⟨0, "k", 1, -604750, 50⟩

/-- C8 counterexample: for a grouping with two member intervals inside
one scored day, the code's offset-1 daily baseline window shifts only
the last member interval's intersection with the day, not the scored
day window: the two windows differ, and a transaction lying in the
claimed shifted day window yields a sample under the claim's reading
but the code collects no baseline sample at all. -/
theorem daily_baseline_window_mismatch :
    codeDailyBaselineWindow dayExPeriods 0 86399 (-1000000000) 1000000000 1 =
      some ⟨-604600, -604500⟩ ∧
    claimedDailyBaselineWindow 0 86399 1 = ⟨-604800, -518401⟩ ∧
    codeDailyBaselineWindow dayExPeriods 0 86399 (-1000000000) 1000000000 1 ≠
      some (claimedDailyBaselineWindow 0 86399 1) ∧
    dailyBaselineSamples [dayExTxn] "k" [] dayExPeriods 0 86399
      (-1000000000) 1000000000 = [] ∧
    baselineSample [dayExTxn] "k" []
      (claimedDailyBaselineWindow 0 86399 1).start
      (claimedDailyBaselineWindow 0 86399 1).stop = some (50, 50) := by
  exact ⟨by decide, by decide, by decide, by decide, by decide⟩

/-! ### C9, C10: group budget -/

/-- C9: the reported remaining group budget subtracts, from the
initial budget, the spend summed over every activation of the
restaurant group whose start is on or after the applicable cutoff,
each contributing its own matcher event count times its own reward;
the cutoff is the default date except for the one restaurant matched
by exact name; and a non-positive initial budget short-circuits the
remaining budget to 0. -/
theorem group_budget_correct (txns : List Txn) (acts : List Activation) (g : Nat)
    (name : String) (B : Int) (hB : 0 < B) :
    remainingGroupBudget txns acts g name B =
      B - totalGroupSpend txns acts g (cutoffFor name) ∧
    (∀ B2 : Int, B2 ≤ 0 → remainingGroupBudget txns acts g name B2 = 0) ∧
    totalGroupSpend txns acts g (cutoffFor name) =
      ((acts.filter (fun a => decide (a.restGroup = g ∧ cutoffFor name ≤ a.start))).map
        (groupSpendOne txns)).sum ∧
    (∀ a : Activation, ∀ m rw : Int, a.minSpend = some m → a.reward = some rw →
      groupSpendOne txns a = (redemptionCountAll (actTxns txns a) m : Int) * rw) ∧
    (∀ a : Activation, a.minSpend = none ∨ a.reward = none → groupSpendOne txns a = 0) ∧
    cutoffFor spectatorName = spectatorCutoff ∧
    (name ≠ spectatorName → cutoffFor name = defaultCutoff) := by
  refine ⟨if_pos hB, ?_, rfl, ?_, ?_, ?_, ?_⟩
  · intro B2 hB2
    exact if_neg (not_lt.mpr hB2)
  · intro a m rw hm hr
    simp [groupSpendOne, hm, hr]
  · intro a ha
    rcases ha with hm | hr
    · simp [groupSpendOne, hm]
    · cases hms : a.minSpend <;> simp [groupSpendOne, hms, hr]
  · simp [cutoffFor]
  · intro hne
    simp [cutoffFor, hne]

/-- The budget-witness activation: threshold $10, reward $10, starting
exactly at the default cutoff. -/
def budgetExAct : Activation := ⟨"k", 1, defaultCutoff, defaultCutoff + 1000, some 10, some 10⟩

/-- The budget-witness transaction: $10 at the activation start. -/
def budgetExTxn : Txn := ⟨0, "k", 7, defaultCutoff, 10⟩

/-- Witness for C9: initial budget 500, one qualifying redemption at
$10 reward leaves 490 remaining. -/
theorem group_budget_correct_witness :
    (0 : Int) < 500 ∧
    remainingGroupBudget [budgetExTxn] [budgetExAct] 1 "r" 500 =
      500 - totalGroupSpend [budgetExTxn] [budgetExAct] 1 (cutoffFor "r") :=
  ⟨by decide, (group_budget_correct [budgetExTxn] [budgetExAct] 1 "r" 500 (by decide)).1⟩

/-- C10: when the initial budget is positive the remaining budget is
exactly the initial budget minus the cumulative group spend, with no
lower clamp, and on a concrete input whose group spend ($10) exceeds
the positive initial budget ($5) the reported remaining budget is
strictly negative. -/
theorem budget_no_lower_clamp (txns : List Txn) (acts : List Activation) (g : Nat)
    (name : String) (B : Int) (hB : 0 < B) :
    remainingGroupBudget txns acts g name B =
      B - totalGroupSpend txns acts g (cutoffFor name) ∧
    (5 : Int) < totalGroupSpend [budgetExTxn] [budgetExAct] 1 (cutoffFor "r") ∧
    remainingGroupBudget [budgetExTxn] [budgetExAct] 1 "r" 5 = -5 ∧
    remainingGroupBudget [budgetExTxn] [budgetExAct] 1 "r" 5 < 0 := by
  exact ⟨if_pos hB, by decide, by decide, by decide⟩

/-- Witness for C10: the no-clamp equation instantiated at the
concrete over-spent scenario. -/
theorem budget_no_lower_clamp_witness :
    (0 : Int) < 5 ∧
    remainingGroupBudget [budgetExTxn] [budgetExAct] 1 "r" 5 =
      5 - totalGroupSpend [budgetExTxn] [budgetExAct] 1 (cutoffFor "r") :=
  ⟨by decide, (budget_no_lower_clamp [budgetExTxn] [budgetExAct] 1 "r" 5 (by decide)).1⟩

/-- Witness for C1: events and qualifying steps are in bijection on a
concrete stream. -/
theorem window_threshold_correct_witness :
    (matchUser dupExTxns 10 dupExTxns []).events.length =
      ((matchUser dupExTxns 10 dupExTxns []).trace.filter (fun st => st.hit)).length :=
  (window_threshold_correct dupExTxns 10 dupExTxns []).2.2.2

/-- Witness for C4: the first step of the fold-in stream fails. -/
theorem failed_anchor_behavior_witness :
    ((matchUser foldExStream 100 foldExStream []).trace.getD 0 default).hit = false :=
  (failed_anchor_behavior foldExStream 100 foldExStream []).2.2.2.2.1

/-- Witness for C6: the built index lookup at a concrete scope. -/
theorem new_user_classification_witness :
    fsLookup (buildFirstSeen dupExTxns) "k" 1 =
      ((sortByTs dupExTxns).find? (fun t => decide (t.key = "k" ∧ t.user = 1))).map (·.ts) :=
  (new_user_classification dupExTxns (buildFirstSeen dupExTxns) "k" 1 []).2

end SFA
